import Mathlib

/-!
Verification of the list-view controller, search debounce, calendar grid and
edit-modal payload logic of the email-campaigns dashboard.

The tables (campaigns, senders, audiences, audience types, templates) all
implement the same cursor-paginated list-view controller; the definitions
below embed the handlers of `campaigns-table.tsx` / `senders-table.tsx`
(the two are line-for-line identical in the modelled parts).  JS strings are
Lean `String`s; JS string truthiness (`!!x`, `x || ""`) is `x ≠ ""`;
`pageKeys[i] || ""` is `List.getD`.
-/

/-- The pagination / search state owned by one entity table:
`pagination.pageIndex`, `pagination.pageSize`, `pageKeys`,
`lastEvaluatedKey`, `hasNextPage`, `hasPreviousPage`, `searchTerm`. -/
structure ListViewState where
  pageIndex : Nat
  pageSize : Nat
  pageKeys : List String
  lastEvaluatedKey : String
  hasNextPage : Bool
  hasPreviousPage : Bool
  searchTerm : String
deriving Repr, DecidableEq

/-- The initial state of the hooks: `pageIndex: 0, pageSize: 10`,
`pageKeys = [""]`, `lastEvaluatedKey = ""`, both flags false, empty search. -/
def initialListViewState : ListViewState :=
  { pageIndex := 0
    pageSize := 10
    pageKeys := [""]
    lastEvaluatedKey := ""
    hasNextPage := false
    hasPreviousPage := false
    searchTerm := "" }

/-- `const currentPageKey = pageKeys[pagination.pageIndex] || ""` (the fetch
effect and `handleXUpdated` both compute this). -/
def currentPageKey (s : ListViewState) : String :=
  s.pageKeys.getD s.pageIndex ""

/-- `handleNextPage`: guarded by `hasNextPage && lastEvaluatedKey`; appends
`lastEvaluatedKey` when `newPageIndex >= pageKeys.length`, then increments
the page index. -/
def handleNextPage (s : ListViewState) : ListViewState :=
  if s.hasNextPage = true ∧ s.lastEvaluatedKey ≠ "" then
    let newPageIndex := s.pageIndex + 1
    let keys :=
      if s.pageKeys.length ≤ newPageIndex then s.pageKeys ++ [s.lastEvaluatedKey]
      else s.pageKeys
    { s with pageIndex := newPageIndex, pageKeys := keys }
  else s

/-- `handlePreviousPage`: decrement the page index when `hasPreviousPage`. -/
def handlePreviousPage (s : ListViewState) : ListViewState :=
  if s.hasPreviousPage = true then { s with pageIndex := s.pageIndex - 1 } else s

/-- `handlePageSizeChange`: reset to page 0 with the new page size and clear
the cursor history and flags. -/
def handlePageSizeChange (s : ListViewState) (newPageSize : Nat) : ListViewState :=
  { s with
    pageIndex := 0
    pageSize := newPageSize
    pageKeys := [""]
    lastEvaluatedKey := ""
    hasNextPage := false
    hasPreviousPage := false }

/-- The body of the 500ms `setTimeout` inside `debouncedSearch`: commit the
search term and reset pagination, cursor history and flags. -/
def commitSearch (s : ListViewState) (value : String) : ListViewState :=
  { s with
    searchTerm := value
    pageIndex := 0
    pageKeys := [""]
    lastEvaluatedKey := ""
    hasNextPage := false
    hasPreviousPage := false }

/-- The success branch of `fetchCampaigns` / `fetchSenders`:
`setLastEvaluatedKey(result.lastEvaluatedKey || "")`,
`setHasNextPage(!!result.lastEvaluatedKey)`,
`setHasPreviousPage(pagination.pageIndex > 0)`.  A missing
`lastEvaluatedKey` in the response is modelled as `""`. -/
def applyFetchSuccess (s : ListViewState) (serverKey : String) : ListViewState :=
  { s with
    lastEvaluatedKey := serverKey
    hasNextPage := decide (serverKey ≠ "")
    hasPreviousPage := decide (0 < s.pageIndex) }

/-- A mutation handler's immediate result: the new state and the cursor it
passes to `fetchCampaigns` / `fetchSenders`. -/
structure HandlerResult where
  state : ListViewState
  fetchCursor : String
deriving Repr, DecidableEq

/-- `handleCampaignAdded` (also reused by the delete and duplicate handlers):
reset pagination, clear the cursor history and flags, then
`fetchCampaigns("")`. -/
def handleCampaignAdded (s : ListViewState) : HandlerResult :=
  { state :=
      { s with
        pageIndex := 0
        pageKeys := [""]
        lastEvaluatedKey := ""
        hasNextPage := false
        hasPreviousPage := false }
    fetchCursor := "" }

/-- `handleDelete` success path: `campaignsApi.delete` succeeded, then
`handleCampaignAdded()` refreshes the table. -/
def handleDeleteSuccess (s : ListViewState) : HandlerResult :=
  handleCampaignAdded s

/-- `handleDuplicate` success path: `campaignsApi.duplicate` succeeded, then
`handleCampaignAdded()` refreshes the table. -/
def handleDuplicateSuccess (s : ListViewState) : HandlerResult :=
  handleCampaignAdded s

/-- `handleCampaignUpdated`: refetch the current page with
`pageKeys[pagination.pageIndex] || ""`; the state is left unchanged. -/
def handleCampaignUpdated (s : ListViewState) : HandlerResult :=
  { state := s, fetchCursor := currentPageKey s }

/-- A state used to instantiate theorems: page 1 of a two-page history. -/
def exStateMid : ListViewState :=
  { pageIndex := 1
    pageSize := 10
    pageKeys := ["", "k1"]
    lastEvaluatedKey := "k2"
    hasNextPage := true
    hasPreviousPage := true
    searchTerm := "" }

/-- Claim C1: `handleNextPage` is a no-op unless `hasNextPage` is true and the
last-returned cursor is non-empty; when it acts it increments `pageIndex` by 1
and appends the last-returned cursor to `pageKeys` exactly when index
`pageIndex + 1` would fall beyond the current length of `pageKeys`. -/
theorem nextPage_guard_and_append (s : ListViewState) :
    ((s.hasNextPage = false ∨ s.lastEvaluatedKey = "") → handleNextPage s = s) ∧
    (s.hasNextPage = true → s.lastEvaluatedKey ≠ "" →
      (handleNextPage s).pageIndex = s.pageIndex + 1 ∧
      ((handleNextPage s).pageKeys = s.pageKeys ++ [s.lastEvaluatedKey] ↔
        s.pageKeys.length ≤ s.pageIndex + 1) ∧
      (s.pageIndex + 1 < s.pageKeys.length →
        (handleNextPage s).pageKeys = s.pageKeys)) := by
  constructor
  · intro h
    unfold handleNextPage
    rw [if_neg]
    rintro ⟨h1, h2⟩
    rcases h with h | h
    · rw [h1] at h; exact Bool.noConfusion h
    · exact h2 h
  · intro h1 h2
    unfold handleNextPage
    rw [if_pos ⟨h1, h2⟩]
    refine ⟨rfl, ?_, ?_⟩
    · by_cases hlen : s.pageKeys.length ≤ s.pageIndex + 1
      · simp [hlen]
      · simp only [if_neg hlen]
        constructor
        · intro heq
          have := congrArg List.length heq
          simp at this
        · intro h; exact absurd h hlen
    · intro hlt
      have hlen : ¬ s.pageKeys.length ≤ s.pageIndex + 1 := by omega
      simp [hlen]

/-- Witness for C1 at a concrete mid-history state. -/
theorem nextPage_guard_and_append_w :
    (handleNextPage exStateMid).pageIndex = exStateMid.pageIndex + 1 ∧
    ((handleNextPage exStateMid).pageKeys =
        exStateMid.pageKeys ++ [exStateMid.lastEvaluatedKey] ↔
      exStateMid.pageKeys.length ≤ exStateMid.pageIndex + 1) ∧
    (exStateMid.pageIndex + 1 < exStateMid.pageKeys.length →
      (handleNextPage exStateMid).pageKeys = exStateMid.pageKeys) :=
  (nextPage_guard_and_append exStateMid).2 rfl (by decide)

/-- Claim C2: changing the page size and committing a new search term each
reset `pageIndex` to 0 and the cursor history to `[""]`, clearing
`lastEvaluatedKey`, `hasNextPage` and `hasPreviousPage`; the page-size change
keeps the search term and the search commit keeps the page size. -/
theorem pageSize_and_search_reset (s : ListViewState) (n : Nat) (v : String) :
    handlePageSizeChange s n =
      { pageIndex := 0
        pageSize := n
        pageKeys := [""]
        lastEvaluatedKey := ""
        hasNextPage := false
        hasPreviousPage := false
        searchTerm := s.searchTerm } ∧
    commitSearch s v =
      { pageIndex := 0
        pageSize := s.pageSize
        pageKeys := [""]
        lastEvaluatedKey := ""
        hasNextPage := false
        hasPreviousPage := false
        searchTerm := v } :=
  ⟨rfl, rfl⟩

/-- Claim C3: a successful create, delete or duplicate refetches with cursor
`""` (first page), while a successful update refetches with
`pageKeys[pageIndex]`, the current page's memoized cursor, leaving the
pagination state unchanged. -/
theorem mutation_refetch_cursors (s : ListViewState)
    (h : s.pageIndex < s.pageKeys.length) :
    (handleCampaignAdded s).fetchCursor = "" ∧
    (handleDeleteSuccess s).fetchCursor = "" ∧
    (handleDuplicateSuccess s).fetchCursor = "" ∧
    (handleCampaignUpdated s).fetchCursor = s.pageKeys.get ⟨s.pageIndex, h⟩ ∧
    (handleCampaignUpdated s).state = s := by
  refine ⟨rfl, rfl, rfl, ?_, rfl⟩
  simp [handleCampaignUpdated, currentPageKey, List.getD_eq_getElem, h, List.get_eq_getElem]

/-- Witness for C3 at a concrete mid-history state. -/
theorem mutation_refetch_cursors_w :
    (handleCampaignAdded exStateMid).fetchCursor = "" ∧
    (handleDeleteSuccess exStateMid).fetchCursor = "" ∧
    (handleDuplicateSuccess exStateMid).fetchCursor = "" ∧
    (handleCampaignUpdated exStateMid).fetchCursor =
      exStateMid.pageKeys.get ⟨exStateMid.pageIndex, by decide⟩ ∧
    (handleCampaignUpdated exStateMid).state = exStateMid :=
  mutation_refetch_cursors exStateMid (by decide)

/-!  Event-level semantics: a page fetch is triggered by the reactive effect
`React.useEffect(... fetch(pageKeys[pageIndex] || "") ...,
[pagination.pageIndex, pagination.pageSize, searchTerm, fetchX])`, so a
navigation click causes a fetch exactly when it changed the page index. -/

/-- The externally visible events driving the fetch effect of one table. -/
inductive TableEvent where
  | mount : TableEvent
  | clickNext : TableEvent
  | clickPrevious : TableEvent
deriving Repr, DecidableEq

/-- One event step.  `server` maps the cursor sent in a `list` call to the
`lastEvaluatedKey` of the response (`""` for a response without one).  The
returned list records the cursors fetched during the step. -/
def stepTable (server : String → String) (s : ListViewState) :
    TableEvent → ListViewState × List String
  | TableEvent.mount =>
      (applyFetchSuccess s (server (currentPageKey s)), [currentPageKey s])
  | TableEvent.clickNext =>
      let s' := handleNextPage s
      if s'.pageIndex = s.pageIndex then (s', [])
      else (applyFetchSuccess s' (server (currentPageKey s')), [currentPageKey s'])
  | TableEvent.clickPrevious =>
      let s' := handlePreviousPage s
      if s'.pageIndex = s.pageIndex then (s', [])
      else (applyFetchSuccess s' (server (currentPageKey s')), [currentPageKey s'])

/-- Run a sequence of events, accumulating the fetched cursors in order. -/
def runTable (server : String → String) :
    ListViewState → List TableEvent → ListViewState × List String
  | s, [] => (s, [])
  | s, e :: es =>
      let r := stepTable server s e
      let rest := runTable server r.1 es
      (rest.1, r.2 ++ rest.2)

/-- The cursors fetched, in order, when the given events hit a freshly
mounted table. -/
def tableFetches (server : String → String) (events : List TableEvent) :
    List String :=
  (runTable server initialListViewState events).2

/-- The server of the spec's example (page size 10, 25 matching records):
cursor `c1` after page 0, `c2` after page 1, none after page 2. -/
def serverC4 (cursor : String) : String :=
  if cursor = "" then "c1" else if cursor = "c1" then "c2" else ""

/-- Counterexample to claim C4: with the example server, mount followed by
next, next, previous fetches `["", "c1", "c2", "c1"]`, not the sequence
`["", "c1", ""]` stated by the claim — the second next fetches `c2`, and the
previous click re-fetches page 1's cursor `c1`, not `""`. -/
theorem fetch_sequence_claimed_c4 :
    tableFetches serverC4
        [TableEvent.mount, TableEvent.clickNext, TableEvent.clickNext,
          TableEvent.clickPrevious] ≠ ["", "c1", ""] := by
  decide

/-- Amended C4: the event sequence mount, next, next, previous produces the
fetch sequence `""`, `c1`, `c2`, then (on previous) a re-fetch of `c1` taken
from the memoized `pageKeys` — every fetched cursor is an entry of the final
cursor history, so no undefined cursor is ever requested and no cursor is
re-minted for a previously visited page. -/
theorem fetch_sequence_c4 :
    tableFetches serverC4
        [TableEvent.mount, TableEvent.clickNext, TableEvent.clickNext,
          TableEvent.clickPrevious] = ["", "c1", "c2", "c1"] ∧
    (runTable serverC4 initialListViewState
        [TableEvent.mount, TableEvent.clickNext, TableEvent.clickNext,
          TableEvent.clickPrevious]).1.pageKeys = ["", "c1", "c2"] ∧
    ∀ c ∈ tableFetches serverC4
        [TableEvent.mount, TableEvent.clickNext, TableEvent.clickNext,
          TableEvent.clickPrevious],
      c ∈ (runTable serverC4 initialListViewState
        [TableEvent.mount, TableEvent.clickNext, TableEvent.clickNext,
          TableEvent.clickPrevious]).1.pageKeys := by
  refine ⟨by decide, by decide, ?_⟩
  decide

/-- The state reached from a fresh mount by one successful next-page click
against `serverC4`: `pageKeys = ["", "c1"]`, `pageIndex = 1`. -/
def reachableTwoPage : ListViewState :=
  (runTable serverC4 initialListViewState
    [TableEvent.mount, TableEvent.clickNext]).1

/-- Counterexample to claim C10: in the reachable state holding the memoized
cursor `c1`, a page-size change removes `c1` from `pageKeys` (the history is
reset to `[""]`), so `pageKeys` is not append-only across every operation. -/
theorem pageKeys_pruned_on_reset :
    "c1" ∈ reachableTwoPage.pageKeys ∧
    (handlePageSizeChange reachableTwoPage 20).pageKeys = [""] ∧
    "c1" ∉ (handlePageSizeChange reachableTwoPage 20).pageKeys := by
  decide

/-- `head?` of a list is preserved by appending on the right. -/
theorem head?_append_singleton {l : List String} {x a : String}
    (h : l.head? = some a) : (l ++ [x]).head? = some a := by
  cases l with
  | nil => simp at h
  | cons b t => simpa using h

/-- `handleNextPage` either keeps `pageKeys` or appends the last cursor. -/
theorem handleNextPage_pageKeys_cases (s : ListViewState) :
    (handleNextPage s).pageKeys = s.pageKeys ∨
    (handleNextPage s).pageKeys = s.pageKeys ++ [s.lastEvaluatedKey] := by
  by_cases hg : s.hasNextPage = true ∧ s.lastEvaluatedKey ≠ ""
  · by_cases hlen : s.pageKeys.length ≤ s.pageIndex + 1
    · right; simp [handleNextPage, hg, hlen]
    · left; simp [handleNextPage, hg, hlen]
  · left; simp [handleNextPage, hg]

/-- Amended C10: `pageKeys` starts as `[""]` and every operation preserves
`pageKeys[0] = ""`; the navigation operations never remove entries —
next-page either keeps `pageKeys` or appends the last-returned cursor, and
previous-page and fetch completion keep it unchanged — while the reset
operations (page-size change, search commit, create/delete/duplicate
refresh) replace the whole history with `[""]`. -/
theorem pageKeys_invariant (s : ListViewState) (n : Nat) (v k : String)
    (hInv : s.pageKeys.head? = some "") :
    initialListViewState.pageKeys.head? = some "" ∧
    (handleNextPage s).pageKeys.head? = some "" ∧
    ((handleNextPage s).pageKeys = s.pageKeys ∨
      (handleNextPage s).pageKeys = s.pageKeys ++ [s.lastEvaluatedKey]) ∧
    (handlePreviousPage s).pageKeys = s.pageKeys ∧
    (applyFetchSuccess s k).pageKeys = s.pageKeys ∧
    (handlePageSizeChange s n).pageKeys = [""] ∧
    (commitSearch s v).pageKeys = [""] ∧
    (handleCampaignAdded s).state.pageKeys = [""] := by
  refine ⟨rfl, ?_, handleNextPage_pageKeys_cases s, ?_, rfl, rfl, rfl, rfl⟩
  · rcases handleNextPage_pageKeys_cases s with h | h
    · rw [h]; exact hInv
    · rw [h]; exact head?_append_singleton hInv
  · unfold handlePreviousPage
    split <;> rfl

/-- Witness for amended C10 at a concrete mid-history state. -/
theorem pageKeys_invariant_w :
    initialListViewState.pageKeys.head? = some "" ∧
    (handleNextPage exStateMid).pageKeys.head? = some "" ∧
    ((handleNextPage exStateMid).pageKeys = exStateMid.pageKeys ∨
      (handleNextPage exStateMid).pageKeys =
        exStateMid.pageKeys ++ [exStateMid.lastEvaluatedKey]) ∧
    (handlePreviousPage exStateMid).pageKeys = exStateMid.pageKeys ∧
    (applyFetchSuccess exStateMid "k9").pageKeys = exStateMid.pageKeys ∧
    (handlePageSizeChange exStateMid 20).pageKeys = [""] ∧
    (commitSearch exStateMid "q").pageKeys = [""] ∧
    (handleCampaignAdded exStateMid).state.pageKeys = [""] :=
  pageKeys_invariant exStateMid 20 "q" "k9" (by decide)

/-!  The search debounce.  `debouncedSearch` is a closure holding one
`timeoutId`; every call does `clearTimeout(timeoutId)` and schedules the
commit 500ms later.  Keystrokes are modelled as a time-ordered list of
`(time, value)` pairs; since every keystroke clears the previous timer, a
keystroke's commit fires exactly when no further keystroke arrives before
its deadline. -/

/-- The committed search values produced by a keystroke sequence under the
`clearTimeout` / `setTimeout` semantics of `debouncedSearch`: keystroke
`(t, v)` commits `v` at `t + delay` unless the next keystroke arrives
strictly before that deadline and clears the timer. -/
def debounceCommits (delay : Nat) : List (Nat × String) → List String
  | [] => []
  | [k] => [k.2]
  | k :: k' :: rest =>
      if k.1 + delay ≤ k'.1 then k.2 :: debounceCommits delay (k' :: rest)
      else debounceCommits delay (k' :: rest)

/-- Consecutive keystrokes are separated by less than `delay` milliseconds. -/
def gapsWithin (delay : Nat) : List (Nat × String) → Bool
  | [] => true
  | [_] => true
  | k :: k' :: rest => decide (k'.1 < k.1 + delay) && gapsWithin delay (k' :: rest)

/-- A rapid-typing keystroke sequence used to instantiate theorems. -/
def exKeystrokes : List (Nat × String) := [(0, "a"), (100, "ab"), (450, "abc")]

/-- Claim C5: if consecutive keystrokes are separated by less than 500ms,
exactly one search commit occurs and it carries the final keystroke's value
(each commit runs `setSearchTerm` plus the pagination reset, which the fetch
effect turns into one refetch). -/
theorem debounce_single_commit (ks : List (Nat × String))
    (hne : ks ≠ []) (hgap : gapsWithin 500 ks = true) :
    debounceCommits 500 ks = [(ks.getLast hne).2] ∧
    (debounceCommits 500 ks).length = 1 := by
  refine ⟨?_, ?_⟩
  · induction ks with
    | nil => exact absurd rfl hne
    | cons k t ih =>
        cases t with
        | nil => simp [debounceCommits]
        | cons k' t' =>
            obtain ⟨h1, h2⟩ :
                k'.1 < k.1 + 500 ∧ gapsWithin 500 (k' :: t') = true := by
              have h := hgap
              unfold gapsWithin at h
              simpa using h
            have hle : ¬ k.1 + 500 ≤ k'.1 := by omega
            rw [debounceCommits, if_neg hle,
              List.getLast_cons (List.cons_ne_nil k' t')]
            exact ih (List.cons_ne_nil k' t') h2
  · induction ks with
    | nil => exact absurd rfl hne
    | cons k t ih =>
        cases t with
        | nil => simp [debounceCommits]
        | cons k' t' =>
            obtain ⟨h1, h2⟩ :
                k'.1 < k.1 + 500 ∧ gapsWithin 500 (k' :: t') = true := by
              have h := hgap
              unfold gapsWithin at h
              simpa using h
            have hle : ¬ k.1 + 500 ≤ k'.1 := by omega
            rw [debounceCommits, if_neg hle]
            exact ih (List.cons_ne_nil k' t') h2

/-- Witness for C5: three keystrokes inside the 500ms window commit once,
with the final value. -/
theorem debounce_single_commit_w :
    debounceCommits 500 exKeystrokes = [(exKeystrokes.getLast (by decide)).2] ∧
    (debounceCommits 500 exKeystrokes).length = 1 :=
  debounce_single_commit exKeystrokes (by decide) (by decide)

/-!  Timer lifecycle for C9.  After a keystroke sequence, the single pending
timer (if any) is the last keystroke's: `(t_last + delay, v_last)`.  No
`useEffect` cleanup in any table clears this timer — the fetch effect
returns nothing and the `useMemo` closure registers no teardown — so
unmounting leaves the pending timer untouched and it still fires. -/

/-- The timer pending after a keystroke sequence: every call to
`debouncedSearch` clears the previous timer and schedules its own commit at
`t + delay`, so only the last keystroke's timer survives. -/
def pendingDebounceTimer (delay : Nat) (keys : List (Nat × String)) :
    Option (Nat × String) :=
  match keys.getLast? with
  | none => none
  | some k => some (k.1 + delay, k.2)

/-- Component teardown as implemented: no cleanup function clears the
debounce timer (the components register no `useEffect` cleanup for it), so
the pending timer survives unmount unchanged. -/
def unmountDebounceTimer (pending : Option (Nat × String)) :
    Option (Nat × String) :=
  pending

/-- Whether a timer still pending when the component unmounts at
`unmountTime` fires afterwards. -/
def debounceFiresAfterUnmount (delay : Nat) (keys : List (Nat × String))
    (unmountTime : Nat) : Bool :=
  match unmountDebounceTimer (pendingDebounceTimer delay keys) with
  | none => false
  | some p => decide (unmountTime < p.1)

/-- Claim C9 (code bug): the timer is indeed cleared and reset on every
keystroke — after a keystroke at time `t` with value `v` the only pending
timer is `(t + 500, v)` — but nothing clears it on teardown: after a single
keystroke at t=0 and an unmount at t=100, the pending commit still fires at
t=500, after the component unmounted. -/
theorem debounce_timer_fires_after_unmount :
    pendingDebounceTimer 500 [(0, "a")] = some (500, "a") ∧
    unmountDebounceTimer (pendingDebounceTimer 500 [(0, "a")]) =
      some (500, "a") ∧
    debounceFiresAfterUnmount 500 [(0, "a")] 100 = true := by
  decide

/-!  Calendar view (`campaign-calendar.tsx`).  `fetchScheduledCampaigns`
walks the fetched schedules; for each one it tries
`campaignsApi.getOne(schedule.campaignId)` and pushes a calendar event with
the campaign on success and without it on failure (the `catch` branch).
`getMonthDays` builds the month grid from the first of the month, its
weekday (`getDay`, Sunday = 0) and the number of days in the month; dates
are modelled as absolute day numbers (`Int`), so "first of month" is an
integer and the JS `Date` day arithmetic is integer arithmetic. -/

/-- The `Campaign` record of `campaigns-api.ts` (`locale` embeds the source
field `local`, which is a Lean keyword). -/
structure Campaign where
  id : String
  name : String
  locale : String
  audienceId : String
  senderId : String
  senderAlias : String
  subject : String
  content : String
  templateId : String
  status : String
  previousStatus : String
  createDate : String
  createUser : String
  modifyDate : String
  modifyUser : String
deriving Repr, DecidableEq

/-- The `Schedule` record of `scheduler-api.ts` (`vars` embeds the source
field `variables`, which Lean reserves). -/
structure Schedule where
  id : String
  campaignId : String
  emailReceiver : List String
  scheduled_time : String
  vars : List (String × String)
deriving Repr, DecidableEq

/-- A `CalendarEvent`: the schedule, the optionally resolved campaign, and
the date built from `schedule.scheduled_time`. -/
structure CalendarEvent where
  schedule : Schedule
  campaign : Option Campaign
  date : String
deriving Repr, DecidableEq

/-- The loop of `fetchScheduledCampaigns`: `campaignsApi.getOne` is modelled
as a function to `Option Campaign` (`none` = the lookup threw); the `catch`
branch pushes the event without campaign details instead of dropping it. -/
def fetchScheduledCampaignsEvents (getOne : String → Option Campaign) :
    List Schedule → List CalendarEvent
  | [] => []
  | sch :: rest =>
      { schedule := sch
        campaign := getOne sch.campaignId
        date := sch.scheduled_time } ::
        fetchScheduledCampaignsEvents getOne rest

/-- Claim C7: the calendar emits exactly one event per fetched schedule — the
event count equals the schedule count, event `i` carries schedule `i`, its
campaign field is exactly the lookup result, and a failed lookup yields an
event with an absent campaign rather than a dropped schedule. -/
theorem calendar_keeps_failed_lookups (getOne : String → Option Campaign)
    (l : List Schedule) :
    (fetchScheduledCampaignsEvents getOne l).length = l.length ∧
    ∀ (i : Nat) (hi : i < l.length)
      (hi' : i < (fetchScheduledCampaignsEvents getOne l).length),
      ((fetchScheduledCampaignsEvents getOne l).get ⟨i, hi'⟩).schedule =
        l.get ⟨i, hi⟩ ∧
      ((fetchScheduledCampaignsEvents getOne l).get ⟨i, hi'⟩).campaign =
        getOne (l.get ⟨i, hi⟩).campaignId ∧
      (getOne (l.get ⟨i, hi⟩).campaignId = none →
        ((fetchScheduledCampaignsEvents getOne l).get ⟨i, hi'⟩).campaign =
          none) := by
  induction l with
  | nil =>
      refine ⟨rfl, ?_⟩
      intro i hi hi'
      exact absurd hi (by simp)
  | cons sch rest ih =>
      refine ⟨by simp [fetchScheduledCampaignsEvents, ih.1], ?_⟩
      intro i hi hi'
      cases i with
      | zero => exact ⟨rfl, rfl, fun h => h⟩
      | succ i =>
          have h1 : i < rest.length := by simpa using hi
          have h2 : i < (fetchScheduledCampaignsEvents getOne rest).length := by
            have := ih.1
            omega
          exact ih.2 i h1 h2

/-- An example campaign for instantiating theorems. -/
def exCampaign : Campaign :=
  { id := "c1"
    name := "Spring"
    locale := "FR"
    audienceId := "a1"
    senderId := "s1"
    senderAlias := "News"
    subject := "Hello"
    content := "<p>Hi</p>"
    templateId := "t1"
    status := "planned"
    previousStatus := ""
    createDate := ""
    createUser := ""
    modifyDate := ""
    modifyUser := "" }

/-- An example campaign lookup that only knows campaign `c1`. -/
def exLookup : String → Option Campaign :=
  fun cid => if cid = "c1" then some exCampaign else none

/-- Two schedules, the second referencing a campaign the lookup fails on. -/
def exSchedules : List Schedule :=
  [ { id := "sch1"
      campaignId := "c1"
      emailReceiver := ["a@b.cd"]
      scheduled_time := "2025-04-01T10:00:00Z"
      vars := [] }
  , { id := "sch2"
      campaignId := "missing"
      emailReceiver := []
      scheduled_time := "2025-04-02T10:00:00Z"
      vars := [] } ]

/-- Witness for C7: the failed lookup for schedule `sch2` still yields a
second event, with an absent campaign. -/
theorem calendar_keeps_failed_lookups_w :
    (fetchScheduledCampaignsEvents exLookup exSchedules).length =
      exSchedules.length ∧
    ((fetchScheduledCampaignsEvents exLookup exSchedules).get
        ⟨1, by decide⟩).campaign = none := by
  have h := calendar_keeps_failed_lookups exLookup exSchedules
  refine ⟨h.1, ?_⟩
  have h2 := (h.2 1 (by decide) (by decide)).2.1
  rw [h2]
  decide

/-- A run of `n` consecutive day numbers starting at `a`. -/
def daysFrom (a : Int) : Nat → List Int
  | 0 => []
  | n + 1 => a :: daysFrom (a + 1) n

/-- The first loop of `getMonthDays`:
`for (let i = startDay - 1; i >= 0; i--) days.push(start minus (i+1) days)`,
pushing the previous month's trailing days in ascending order. -/
def leadingDays (start : Int) : Nat → List Int
  | 0 => []
  | i + 1 => (start - (i + 1)) :: leadingDays start i

/-- `getMonthDays`: the leading days of the previous month, the
`daysInMonth` days of the current month (`first + 0 .. first + dim - 1`),
then `42 - days.length` leading days of the next month. -/
def getMonthDays (first : Int) (startDay daysInMonth : Nat) : List Int :=
  leadingDays first startDay ++ daysFrom first daysInMonth ++
    daysFrom (first + daysInMonth) (42 - (startDay + daysInMonth))

/-- Length of a consecutive run. -/
theorem daysFrom_length (a : Int) (n : Nat) : (daysFrom a n).length = n := by
  induction n generalizing a with
  | zero => rfl
  | succ n ih => simp [daysFrom, ih]

/-- Splitting a consecutive run. -/
theorem daysFrom_append (a : Int) (m n : Nat) :
    daysFrom a (m + n) = daysFrom a m ++ daysFrom (a + m) n := by
  induction m generalizing a with
  | zero => simp [daysFrom]
  | succ m ih =>
      have h0 : m + 1 + n = (m + n) + 1 := by omega
      rw [h0]
      simp only [daysFrom, List.cons_append]
      rw [ih (a + 1)]
      have hc : a + 1 + (m : Int) = a + ((m : Nat) + 1 : Nat) := by
        push_cast
        ring
      rw [hc]

/-- Indexing a consecutive run. -/
theorem daysFrom_getD (a : Int) (n i : Nat) (h : i < n) :
    (daysFrom a n).getD i 0 = a + i := by
  induction n generalizing a i with
  | zero => omega
  | succ n ih =>
      cases i with
      | zero => simp [daysFrom]
      | succ i =>
          have hi : i < n := by omega
          simp only [daysFrom, List.getD_cons_succ]
          rw [ih (a + 1) i hi]
          push_cast
          ring

/-- Membership in a consecutive run. -/
theorem mem_daysFrom (a x : Int) (n : Nat) :
    x ∈ daysFrom a n ↔ a ≤ x ∧ x < a + n := by
  induction n generalizing a with
  | zero => simp [daysFrom]
  | succ n ih =>
      simp only [daysFrom, List.mem_cons, ih (a + 1)]
      constructor
      · rintro (h | ⟨h1, h2⟩) <;> omega
      · rintro ⟨h1, h2⟩
        by_cases hx : x = a
        · exact Or.inl hx
        · right
          omega

/-- The leading loop produces the consecutive run ending just before
`start`. -/
theorem leadingDays_eq (start : Int) (n : Nat) :
    leadingDays start n = daysFrom (start - n) n := by
  induction n with
  | zero => rfl
  | succ n ih =>
      simp only [leadingDays, daysFrom]
      rw [ih]
      have h1 : start - ((n : Int) + 1) = start - (((n + 1 : Nat)) : Int) := by
        push_cast
        ring
      have h2 : start - (n : Int) = start - (((n + 1 : Nat)) : Int) + 1 := by
        push_cast
        ring
      rw [h2, h1]

/-- With a realistic weekday and month length, `getMonthDays` is the
consecutive 42-day run starting `startDay` days before the first of the
month. -/
theorem getMonthDays_eq (first : Int) (startDay daysInMonth : Nat)
    (h : startDay + daysInMonth ≤ 42) :
    getMonthDays first startDay daysInMonth = daysFrom (first - startDay) 42 := by
  have h42 : 42 = startDay + (daysInMonth + (42 - (startDay + daysInMonth))) := by
    omega
  rw [getMonthDays, leadingDays_eq]
  conv_rhs => rw [h42]
  rw [daysFrom_append, daysFrom_append]
  have e1 : first - (startDay : Int) + (startDay : Int) = first := by ring
  rw [e1, List.append_assoc]

/-- Claim C8: for any month (given by the day number `first` of its first
day, its Sunday-based weekday `startDay` and its length `daysInMonth`), the
month grid has exactly 42 entries, entry `i` is `first - startDay + i` (so
the days are consecutive and start at the grid-aligned week start at or
before the first of the month), and every day of the month is in the grid. -/
theorem month_grid (first : Int) (startDay daysInMonth : Nat)
    (h7 : startDay < 7) (h31 : daysInMonth ≤ 31) :
    (getMonthDays first startDay daysInMonth).length = 42 ∧
    (∀ i : Nat, i < 42 →
      (getMonthDays first startDay daysInMonth).getD i 0 =
        first - startDay + i) ∧
    first - startDay ≤ first ∧
    (∀ x : Int, first ≤ x → x < first + daysInMonth →
      x ∈ getMonthDays first startDay daysInMonth) := by
  have hle : startDay + daysInMonth ≤ 42 := by omega
  rw [getMonthDays_eq first startDay daysInMonth hle]
  refine ⟨daysFrom_length _ _, ?_, ?_, ?_⟩
  · intro i hi
    exact daysFrom_getD _ _ _ hi
  · omega
  · intro x hx1 hx2
    rw [mem_daysFrom]
    omega

/-- Witness for C8: April 2025 shape (first of month at day number 100,
weekday 4, 30 days) gives a 42-cell grid starting at day 96 and containing
the first of the month. -/
theorem month_grid_w :
    (getMonthDays 100 4 30).length = 42 ∧
    (getMonthDays 100 4 30).getD 0 0 = 96 ∧
    (100 : Int) ∈ getMonthDays 100 4 30 := by
  have h := month_grid 100 4 30 (by decide) (by decide)
  refine ⟨h.1, ?_, h.2.2.2 100 (by decide) (by decide)⟩
  have h0 := h.2.1 0 (by decide)
  rw [h0]
  norm_num

/-!  Edit modals.  `edit-campaign-modal.tsx` builds an
`UpdateCampaignRequest` starting from `{ user: "Bruno" }` and adds each
form field behind a truthiness test: the free-text fields are tested and
sent trimmed (`if (formData.name.trim()) requestData.name = ...trim()`),
while the select-backed ids and the status are tested raw
(`if (formData.audienceId) ...`).  `edit-sender-modal.tsx` instead
validates (email non-empty and well-formed, at least one alias and one
email type) and then always sends every field.  JS `trim()` and the email
regex are embedded executably over the string's character list. -/

/-- JS `String.prototype.trim`: drop whitespace from both ends. -/
def jsTrim (s : String) : String :=
  String.mk
    (((s.data.dropWhile Char.isWhitespace).reverse.dropWhile
        Char.isWhitespace).reverse)

/-- The `FormData` of the edit-campaign modal (`locale` embeds the source
field `local`). -/
structure CampaignFormData where
  name : String
  locale : String
  audienceId : String
  senderId : String
  senderAlias : String
  subject : String
  content : String
  templateId : String
  status : String
deriving Repr, DecidableEq

/-- `UpdateCampaignRequest` of `campaigns-api.ts`: every entity field
optional, `user` mandatory. -/
structure UpdateCampaignRequest where
  name : Option String
  locale : Option String
  audienceId : Option String
  senderId : Option String
  senderAlias : Option String
  subject : Option String
  content : Option String
  templateId : Option String
  status : Option String
  user : String
deriving Repr, DecidableEq

/-- The payload construction in the edit-campaign modal's `handleSubmit`:
an absent field is `none`, a present field `some` its sent value. -/
def buildUpdateCampaignRequest (f : CampaignFormData) : UpdateCampaignRequest :=
  { user := "Bruno"
    name := if jsTrim f.name ≠ "" then some (jsTrim f.name) else none
    locale := if jsTrim f.locale ≠ "" then some (jsTrim f.locale) else none
    audienceId := if f.audienceId ≠ "" then some f.audienceId else none
    senderId := if f.senderId ≠ "" then some f.senderId else none
    senderAlias :=
      if jsTrim f.senderAlias ≠ "" then some (jsTrim f.senderAlias) else none
    subject := if jsTrim f.subject ≠ "" then some (jsTrim f.subject) else none
    content := if jsTrim f.content ≠ "" then some (jsTrim f.content) else none
    templateId := if f.templateId ≠ "" then some f.templateId else none
    status := if f.status ≠ "" then some f.status else none }

/-- The `SenderFormData` of the edit-sender modal (`aliases` embeds the
source field `alias`, a Lean keyword). -/
structure SenderFormData where
  email : String
  aliases : List String
  emailType : List String
  active : Bool
deriving Repr, DecidableEq

/-- The `UpdateSenderRequest` sent by the edit-sender modal: every field is
always present. -/
structure UpdateSenderRequest where
  email : String
  aliases : List String
  emailType : List String
  active : Bool
  user : String
deriving Repr, DecidableEq

/-- The regex `^[^\s@]+@[^\s@]+\.[^\s@]+$` of `validateEmail`, denoted over
the character list: no whitespace anywhere, exactly one `@` with at least
one character before it, and after it a `.` with at least one character on
each side. -/
def isValidEmail (s : String) : Bool :=
  let cs := s.data
  cs.all (fun c => !c.isWhitespace) && (cs.count '@' == 1) &&
    (let a := cs.takeWhile (fun c => c ≠ '@')
     let rest := (cs.dropWhile (fun c => c ≠ '@')).drop 1
     decide (a ≠ []) && ((rest.drop 1).dropLast.contains '.'))

/-- `validateForm` of the edit-sender modal: email non-empty after trimming
and well-formed, at least one alias, at least one email type. -/
def validateSenderForm (f : SenderFormData) : Bool :=
  decide (jsTrim f.email ≠ "") && isValidEmail f.email &&
    decide (f.aliases.length ≠ 0) && decide (f.emailType.length ≠ 0)

/-- `handleSubmit` of the edit-sender modal: returns without a request when
validation fails or no sender id is selected; otherwise sends every field
(email trimmed) plus the constant user. -/
def senderHandleSubmit (f : SenderFormData) (senderId : Option String) :
    Option UpdateSenderRequest :=
  if validateSenderForm f = true ∧ senderId.isSome = true then
    some
      { email := jsTrim f.email
        aliases := f.aliases
        emailType := f.emailType
        active := f.active
        user := "Bruno" }
  else none

/-- A campaign edit form whose only non-blank entity field is the
whitespace-only `audienceId` (status keeps its `draft` default). -/
def exBlankAudienceForm : CampaignFormData :=
  { name := ""
    locale := ""
    audienceId := " "
    senderId := ""
    senderAlias := ""
    subject := ""
    content := ""
    templateId := ""
    status := "draft" }

/-- Counterexample to claim C6: a whitespace-only `audienceId` is empty
after trimming, yet the update payload still carries it (untrimmed) —
the select-backed fields are tested for raw truthiness, not trimmed. -/
theorem update_payload_keeps_untrimmed_select_field :
    jsTrim " " = "" ∧
    (buildUpdateCampaignRequest exBlankAudienceForm).audienceId = some " " := by
  decide

/-- Amended C6: in the campaign edit modal, the free-text fields (name,
local, senderAlias, subject, content) are included in the update payload iff
they are non-empty after trimming, and are sent trimmed; the select-backed
fields (audienceId, senderId, templateId, status) are included iff their raw
value is non-empty, without trimming; the constant `user` is always sent.
The sender edit modal omits nothing: a submit only goes through when
validation holds, and then the payload carries the trimmed email and all
remaining fields, each string or list field being non-empty. -/
theorem edit_modal_partial_update (f : CampaignFormData) (g : SenderFormData) :
    (buildUpdateCampaignRequest f).user = "Bruno" ∧
    ((buildUpdateCampaignRequest f).name = none ↔ jsTrim f.name = "") ∧
    ((buildUpdateCampaignRequest f).locale = none ↔ jsTrim f.locale = "") ∧
    ((buildUpdateCampaignRequest f).senderAlias = none ↔
      jsTrim f.senderAlias = "") ∧
    ((buildUpdateCampaignRequest f).subject = none ↔ jsTrim f.subject = "") ∧
    ((buildUpdateCampaignRequest f).content = none ↔ jsTrim f.content = "") ∧
    ((buildUpdateCampaignRequest f).audienceId = none ↔ f.audienceId = "") ∧
    ((buildUpdateCampaignRequest f).senderId = none ↔ f.senderId = "") ∧
    ((buildUpdateCampaignRequest f).templateId = none ↔ f.templateId = "") ∧
    ((buildUpdateCampaignRequest f).status = none ↔ f.status = "") ∧
    (jsTrim f.name ≠ "" →
      (buildUpdateCampaignRequest f).name = some (jsTrim f.name)) ∧
    (f.audienceId ≠ "" →
      (buildUpdateCampaignRequest f).audienceId = some f.audienceId) ∧
    (∀ (sid : String) (p : UpdateSenderRequest),
      senderHandleSubmit g (some sid) = some p →
        p.email = jsTrim g.email ∧ p.aliases = g.aliases ∧
        p.emailType = g.emailType ∧ p.active = g.active ∧ p.user = "Bruno" ∧
        p.email ≠ "" ∧ p.aliases ≠ [] ∧ p.emailType ≠ []) := by
  refine ⟨rfl, ?_, ?_, ?_, ?_, ?_, ?_, ?_, ?_, ?_, ?_, ?_, ?_⟩
  · by_cases h : jsTrim f.name = "" <;> simp [buildUpdateCampaignRequest, h]
  · by_cases h : jsTrim f.locale = "" <;> simp [buildUpdateCampaignRequest, h]
  · by_cases h : jsTrim f.senderAlias = "" <;>
      simp [buildUpdateCampaignRequest, h]
  · by_cases h : jsTrim f.subject = "" <;> simp [buildUpdateCampaignRequest, h]
  · by_cases h : jsTrim f.content = "" <;> simp [buildUpdateCampaignRequest, h]
  · by_cases h : f.audienceId = "" <;> simp [buildUpdateCampaignRequest, h]
  · by_cases h : f.senderId = "" <;> simp [buildUpdateCampaignRequest, h]
  · by_cases h : f.templateId = "" <;> simp [buildUpdateCampaignRequest, h]
  · by_cases h : f.status = "" <;> simp [buildUpdateCampaignRequest, h]
  · intro hv
    simp [buildUpdateCampaignRequest, hv]
  · intro hv
    simp [buildUpdateCampaignRequest, hv]
  · intro sid p hp
    unfold senderHandleSubmit at hp
    by_cases hval : validateSenderForm g = true ∧
        (Option.some sid).isSome = true
    · rw [if_pos hval] at hp
      have hv := hval.1
      unfold validateSenderForm at hv
      simp only [Bool.and_eq_true, decide_eq_true_eq] at hv
      obtain ⟨⟨⟨hmail, _⟩, hal⟩, het⟩ := hv
      have hpe := Option.some.inj hp
      rw [← hpe]
      refine ⟨rfl, rfl, rfl, rfl, rfl, hmail, ?_, ?_⟩
      · intro hnil
        have h9 : g.aliases = [] := hnil
        rw [h9] at hal
        exact hal rfl
      · intro hnil
        have h9 : g.emailType = [] := hnil
        rw [h9] at het
        exact het rfl
    · rw [if_neg hval] at hp
      exact Option.noConfusion hp

/-- A campaign edit form mixing blank, whitespace-only and filled fields. -/
def exEditForm : CampaignFormData :=
  { name := "  New name "
    locale := ""
    audienceId := "a1"
    senderId := ""
    senderAlias := " "
    subject := "Hi"
    content := ""
    templateId := ""
    status := "draft" }

/-- A valid sender edit form. -/
def exSenderForm : SenderFormData :=
  { email := "a@b.cd"
    aliases := ["Ann"]
    emailType := ["campaign"]
    active := false }

/-- The payload the valid sender form produces. -/
def exSenderPayload : UpdateSenderRequest :=
  { email := "a@b.cd"
    aliases := ["Ann"]
    emailType := ["campaign"]
    active := false
    user := "Bruno" }

/-- Witness for amended C6: the mixed campaign form keeps only its non-blank
fields (trimmed for free text, raw for selects) and the valid sender form's
submit carries the trimmed, non-empty email. -/
theorem edit_modal_partial_update_w :
    ((buildUpdateCampaignRequest exEditForm).name = none ↔
      jsTrim exEditForm.name = "") ∧
    (buildUpdateCampaignRequest exEditForm).name =
      some (jsTrim exEditForm.name) ∧
    (buildUpdateCampaignRequest exEditForm).audienceId =
      some exEditForm.audienceId ∧
    exSenderPayload.email = jsTrim exSenderForm.email ∧
    exSenderPayload.email ≠ "" := by
  obtain ⟨w1, w2, w3, w4, w5, w6, w7, w8, w9, w10, w11, w12, w13⟩ :=
    edit_modal_partial_update exEditForm exSenderForm
  have hs := w13 "s1" exSenderPayload (by decide)
  exact ⟨w2, w11 (by decide), w12 (by decide), hs.1, hs.2.2.2.2.2.1⟩

/-- Witness for amended C4: the previous-click re-fetch cursor `c1` is an
entry of the final memoized cursor history. -/
theorem fetch_sequence_c4_w :
    "c1" ∈ (runTable serverC4 initialListViewState
      [TableEvent.mount, TableEvent.clickNext, TableEvent.clickNext,
        TableEvent.clickPrevious]).1.pageKeys :=
  fetch_sequence_c4.2.2 "c1" (by decide)

/-- Witness for C2 at a concrete mid-history state. -/
theorem pageSize_and_search_reset_w :
    handlePageSizeChange exStateMid 20 =
      { pageIndex := 0
        pageSize := 20
        pageKeys := [""]
        lastEvaluatedKey := ""
        hasNextPage := false
        hasPreviousPage := false
        searchTerm := exStateMid.searchTerm } ∧
    commitSearch exStateMid "q" =
      { pageIndex := 0
        pageSize := exStateMid.pageSize
        pageKeys := [""]
        lastEvaluatedKey := ""
        hasNextPage := false
        hasPreviousPage := false
        searchTerm := "q" } :=
  pageSize_and_search_reset exStateMid 20 "q"
